import Mathlib

/-!
Shallow embedding of `src/composite_pattern_notes.py`, a composite-pattern
note-taking document model.  Python strings are modelled as `List Char`
(`Str`), Python `str.split('\n')` as `splitNl`, `'\n'.join` as `joinNl`,
`' '.join` as `joinSp`, string repetition `s * n` as `pyRepeat`, and the
insertion-ordered `dict` used for metadata as an association list.
-/

/-- Python strings, modelled as lists of characters. -/
abbrev Str := List Char

/-- Shorthand turning a Lean string literal into the `Str` model. -/
def str (s : String) : Str := s.toList

/-- Python `s * n` for a string `s` and non-negative `n`: `n` copies of `s`. -/
def pyRepeat (s : Str) : Nat → Str
  | 0 => []
  | n + 1 => s ++ pyRepeat s n

/-- The `prefix = "  " * indent` computation shared by all `render` methods. -/
def indentStr (indent : Nat) : Str := pyRepeat (str "  ") indent

/-- Python `"#" * self.level` for an `int` level (negative levels give `""`). -/
def hashRun (level : Int) : Str := pyRepeat (str "#") level.toNat

/-- Python `s.split('\n')`: split at every newline; `"".split('\n') = [""]`. -/
def splitNl : Str → List Str
  | [] => [[]]
  | c :: rest =>
    let sp := splitNl rest
    if c = '\n' then [] :: sp else (c :: sp.headI) :: sp.tail

/-- Python `'\n'.join(pieces)`. -/
def joinNl : List Str → Str
  | [] => []
  | [s] => s
  | s :: rest => s ++ '\n' :: joinNl rest

/-- Python `' '.join(pieces)`. -/
def joinSp : List Str → Str
  | [] => []
  | [s] => s
  | s :: rest => s ++ ' ' :: joinSp rest

/-- The note component tree of `composite_pattern_notes.py`: the five leaf
classes `Heading`, `Subheading`, `Text`, `CodeBlock`, `Diagram` and the two
composites `Section` (title and children) and `Note` (title, children and
insertion-ordered metadata). -/
inductive NoteComponent : Type where
  | heading (text : Str)
  | subheading (text : Str) (level : Int)
  | text (content : Str)
  | codeBlock (code : Str) (language : Str)
  | diagram (content : Str) (diagramTy : Str)
  | section_ (title : Str) (components : List NoteComponent)
  | note (title : Str) (components : List NoteComponent) (metadata : List (Str × Str))

mutual

/-- Structural equality test on components (used to model Python `==`). -/
def ncBeq : NoteComponent → NoteComponent → Bool
  | .heading t, .heading t' => t = t'
  | .subheading t l, .subheading t' l' => t = t' && l = l'
  | .text c, .text c' => c = c'
  | .codeBlock c g, .codeBlock c' g' => c = c' && g = g'
  | .diagram c d, .diagram c' d' => c = c' && d = d'
  | .section_ t cs, .section_ t' cs' => t = t' && ncListBeq cs cs'
  | .note t cs md, .note t' cs' md' => t = t' && (ncListBeq cs cs' && md = md')
  | _, _ => false

/-- Structural equality test on lists of components. -/
def ncListBeq : List NoteComponent → List NoteComponent → Bool
  | [], [] => true
  | x :: xs, y :: ys => ncBeq x y && ncListBeq xs ys
  | _, _ => false

end

mutual

theorem ncBeq_iff : (a b : NoteComponent) → (ncBeq a b = true ↔ a = b)
  | .heading t, .heading t' => by simp [ncBeq]
  | .subheading t l, .subheading t' l' => by simp [ncBeq]
  | .text c, .text c' => by simp [ncBeq]
  | .codeBlock c g, .codeBlock c' g' => by simp [ncBeq]
  | .diagram c d, .diagram c' d' => by simp [ncBeq]
  | .section_ t cs, .section_ t' cs' => by
      simp [ncBeq, ncListBeq_iff cs cs']
  | .note t cs md, .note t' cs' md' => by
      simp [ncBeq, ncListBeq_iff cs cs']
  | .heading _, .subheading _ _ => by simp [ncBeq]
  | .heading _, .text _ => by simp [ncBeq]
  | .heading _, .codeBlock _ _ => by simp [ncBeq]
  | .heading _, .diagram _ _ => by simp [ncBeq]
  | .heading _, .section_ _ _ => by simp [ncBeq]
  | .heading _, .note _ _ _ => by simp [ncBeq]
  | .subheading _ _, .heading _ => by simp [ncBeq]
  | .subheading _ _, .text _ => by simp [ncBeq]
  | .subheading _ _, .codeBlock _ _ => by simp [ncBeq]
  | .subheading _ _, .diagram _ _ => by simp [ncBeq]
  | .subheading _ _, .section_ _ _ => by simp [ncBeq]
  | .subheading _ _, .note _ _ _ => by simp [ncBeq]
  | .text _, .heading _ => by simp [ncBeq]
  | .text _, .subheading _ _ => by simp [ncBeq]
  | .text _, .codeBlock _ _ => by simp [ncBeq]
  | .text _, .diagram _ _ => by simp [ncBeq]
  | .text _, .section_ _ _ => by simp [ncBeq]
  | .text _, .note _ _ _ => by simp [ncBeq]
  | .codeBlock _ _, .heading _ => by simp [ncBeq]
  | .codeBlock _ _, .subheading _ _ => by simp [ncBeq]
  | .codeBlock _ _, .text _ => by simp [ncBeq]
  | .codeBlock _ _, .diagram _ _ => by simp [ncBeq]
  | .codeBlock _ _, .section_ _ _ => by simp [ncBeq]
  | .codeBlock _ _, .note _ _ _ => by simp [ncBeq]
  | .diagram _ _, .heading _ => by simp [ncBeq]
  | .diagram _ _, .subheading _ _ => by simp [ncBeq]
  | .diagram _ _, .text _ => by simp [ncBeq]
  | .diagram _ _, .codeBlock _ _ => by simp [ncBeq]
  | .diagram _ _, .section_ _ _ => by simp [ncBeq]
  | .diagram _ _, .note _ _ _ => by simp [ncBeq]
  | .section_ _ _, .heading _ => by simp [ncBeq]
  | .section_ _ _, .subheading _ _ => by simp [ncBeq]
  | .section_ _ _, .text _ => by simp [ncBeq]
  | .section_ _ _, .codeBlock _ _ => by simp [ncBeq]
  | .section_ _ _, .diagram _ _ => by simp [ncBeq]
  | .section_ _ _, .note _ _ _ => by simp [ncBeq]
  | .note _ _ _, .heading _ => by simp [ncBeq]
  | .note _ _ _, .subheading _ _ => by simp [ncBeq]
  | .note _ _ _, .text _ => by simp [ncBeq]
  | .note _ _ _, .codeBlock _ _ => by simp [ncBeq]
  | .note _ _ _, .diagram _ _ => by simp [ncBeq]
  | .note _ _ _, .section_ _ _ => by simp [ncBeq]

theorem ncListBeq_iff : (xs ys : List NoteComponent) → (ncListBeq xs ys = true ↔ xs = ys)
  | [], [] => by simp [ncListBeq]
  | x :: xs, y :: ys => by
      simp [ncListBeq, ncBeq_iff x y, ncListBeq_iff xs ys]
  | [], _ :: _ => by simp [ncListBeq]
  | _ :: _, [] => by simp [ncListBeq]

end

instance : DecidableEq NoteComponent :=
  fun a b => decidable_of_iff (ncBeq a b = true) (ncBeq_iff a b)

/-- `Subheading.__init__`: stores `max(2, min(6, level))` (silent clamping). -/
def Subheading.init (text : Str) (level : Int) : NoteComponent :=
  .subheading text (max 2 (min 6 level))

/-- The `key: value` lines of the metadata block in `Note.render`. -/
def metaLines : List (Str × Str) → Str
  | [] => []
  | (k, v) :: rest => k ++ str ": " ++ v ++ str "\n" ++ metaLines rest

mutual

/-- The `render` methods of all seven classes, translated clause by clause. -/
def render : NoteComponent → Nat → Str
  | .heading t, indent => indentStr indent ++ str "# " ++ t ++ str "\n"
  | .subheading t level, indent =>
      indentStr indent ++ hashRun level ++ str " " ++ t ++ str "\n"
  | .text content, indent =>
      joinNl ((splitNl content).map (fun l => indentStr indent ++ l)) ++ str "\n"
  | .codeBlock code language, indent =>
      joinNl ((indentStr indent ++ str "```" ++ language) ::
        ((splitNl code).map (fun l => indentStr indent ++ l) ++
          [indentStr indent ++ str "```"])) ++ str "\n"
  | .diagram content dty, indent =>
      joinNl ((indentStr indent ++ str "[Diagram: " ++ dty ++ str "]") ::
        ((splitNl content).map (fun l => indentStr indent ++ l) ++
          [indentStr indent ++ str "[End Diagram]"])) ++ str "\n"
  | .section_ title comps, indent =>
      (if title = [] then [] else indentStr indent ++ str "## " ++ title ++ str "\n") ++
        renderList comps indent
  | .note title comps metadata, indent =>
      str "# " ++ title ++ str "\n\n" ++
        (if metadata = [] then []
         else str "---\n" ++ metaLines metadata ++ str "---\n\n") ++
        renderNoteList comps indent

/-- The child loop of `Section.render`: children concatenated verbatim. -/
def renderList : List NoteComponent → Nat → Str
  | [], _ => []
  | c :: cs, indent => render c indent ++ renderList cs indent

/-- The child loop of `Note.render`: each child followed by one `"\n"`. -/
def renderNoteList : List NoteComponent → Nat → Str
  | [], _ => []
  | c :: cs, indent => render c indent ++ str "\n" ++ renderNoteList cs indent

end

mutual

/-- The `get_text_content` methods of all seven classes. -/
def get_text_content : NoteComponent → Str
  | .heading t => t
  | .subheading t _ => t
  | .text c => c
  | .codeBlock c _ => c
  | .diagram c _ => c
  | .section_ title comps =>
      joinSp ((if title = [] then [] else [title]) ++ textContents comps)
  | .note title comps _ => joinSp (title :: textContents comps)

/-- The children's digests, in order (`component.get_text_content() for ...`). -/
def textContents : List NoteComponent → List Str
  | [] => []
  | c :: cs => get_text_content c :: textContents cs

end

/-- Python `list.remove(x)`: delete the first element equal to `x`;
`none` models the `ValueError` raised when `x` is absent. -/
def pyListRemove {α : Type} [DecidableEq α] : List α → α → Option (List α)
  | [], _ => none
  | y :: ys, x => if y = x then some ys else (pyListRemove ys x).map (fun zs => y :: zs)

/-- `Section.remove`: `self.components.remove(component)`. -/
def Section.remove (components : List NoteComponent) (component : NoteComponent) :
    Option (List NoteComponent) :=
  pyListRemove components component

/-- `Note.remove`: `self.components.remove(component)`. -/
def Note.remove (components : List NoteComponent) (component : NoteComponent) :
    Option (List NoteComponent) :=
  pyListRemove components component

/-- `Note.set_metadata`: `self.metadata[key] = value` on an insertion-ordered
dict — overwrite in place when the key exists, append otherwise. -/
def Note.set_metadata (metadata : List (Str × Str)) (key value : Str) :
    List (Str × Str) :=
  if metadata.any (fun p => p.1 = key) then
    metadata.map (fun p => if p.1 = key then (key, value) else p)
  else metadata ++ [(key, value)]

/-! ### Helper lemmas about the string model -/

theorem indentStr_zero : indentStr 0 = [] := rfl

theorem indentStr_length (d : Nat) : (indentStr d).length = 2 * d := by
  induction d with
  | zero => rfl
  | succ n ih =>
      have h2 : (str "  ").length = 2 := rfl
      simp only [indentStr, pyRepeat, List.length_append] at *
      omega

theorem nl_not_mem_indentStr (d : Nat) : '\n' ∉ indentStr d := by
  induction d with
  | zero => simp [indentStr, pyRepeat]
  | succ n ih =>
      simp only [indentStr, pyRepeat] at *
      simp only [List.mem_append]
      rintro (h | h)
      · simp [str] at h
      · exact ih h

theorem hashRun_eq_replicate (l : Int) : hashRun l = List.replicate l.toNat '#' := by
  show pyRepeat (str "#") l.toNat = _
  generalize l.toNat = n
  induction n with
  | zero => rfl
  | succ m ih => simp only [pyRepeat, ih, List.replicate_succ]; rfl

theorem splitNl_ne_nil (s : Str) : splitNl s ≠ [] := by
  cases s with
  | nil => simp [splitNl]
  | cons c rest =>
      simp only [splitNl]
      split <;> simp

theorem nl_not_mem_splitNl : ∀ (s : Str), ∀ p ∈ splitNl s, '\n' ∉ p
  | [] => by simp [splitNl]
  | c :: rest => by
      have ih := nl_not_mem_splitNl rest
      have hne := splitNl_ne_nil rest
      intro p hp
      by_cases hc : c = '\n'
      · rw [show splitNl (c :: rest) = [] :: splitNl rest by
          simp only [splitNl, if_pos hc]] at hp
        rcases List.mem_cons.mp hp with h1 | h1
        · subst h1; simp
        · exact ih p h1
      · rw [show splitNl (c :: rest) =
            (c :: (splitNl rest).headI) :: (splitNl rest).tail by
          simp only [splitNl, if_neg hc]] at hp
        revert hp
        generalize hsp : splitNl rest = sp at ih hne
        cases sp with
        | nil => exact absurd rfl hne
        | cons l ls =>
          intro hp
          rcases List.mem_cons.mp hp with h1 | h1
          · subst h1
            have hl : '\n' ∉ l := ih l (by simp)
            intro hmem
            rcases List.mem_cons.mp hmem with hcon | hcon
            · exact hc hcon.symm
            · exact hl hcon
          · exact ih p (List.mem_cons_of_mem _ h1)

theorem splitNl_of_no_nl : ∀ (l : Str), '\n' ∉ l → splitNl l = [l]
  | [], _ => rfl
  | c :: rest, h => by
      have hc : ¬ c = '\n' := fun hc => h (by simp [hc])
      have hrest : '\n' ∉ rest := fun hr => h (by simp [hr])
      simp only [splitNl, if_neg hc, splitNl_of_no_nl rest hrest,
        List.headI_cons, List.tail_cons]

theorem splitNl_append_nl : ∀ (l s : Str), '\n' ∉ l →
    splitNl (l ++ '\n' :: s) = l :: splitNl s
  | [], s, _ => by simp [splitNl]
  | c :: rest, s, h => by
      have hc : ¬ c = '\n' := fun hc => h (by simp [hc])
      have hrest : '\n' ∉ rest := fun hr => h (by simp [hr])
      have ih := splitNl_append_nl rest s hrest
      have ih' : splitNl (rest.append ('\n' :: s)) = rest :: splitNl s := ih
      simp only [List.cons_append, splitNl, if_neg hc, ih, ih', List.headI_cons,
        List.tail_cons]

/-- Rebuild a string from its list of lines, each followed by one newline. -/
def linesFlatten (L : List Str) : Str := (L.map (fun l => l ++ ['\n'])).flatten

/-- The lines a rendered string consists of (the final empty piece after the
terminating newline dropped). -/
def emittedLines (s : Str) : List Str := (splitNl s).dropLast

theorem splitNl_linesFlatten : ∀ (L : List Str), (∀ l ∈ L, '\n' ∉ l) →
    splitNl (linesFlatten L) = L ++ [[]]
  | [], _ => rfl
  | l :: L, h => by
      have hl : '\n' ∉ l := h l (by simp)
      have hL : ∀ x ∈ L, '\n' ∉ x := fun x hx => h x (by simp [hx])
      have ih := splitNl_linesFlatten L hL
      simp only [linesFlatten] at ih ⊢
      simp only [List.map_cons, List.flatten_cons, List.append_assoc,
        List.cons_append, List.nil_append]
      rw [splitNl_append_nl l _ hl, ih]

theorem emittedLines_linesFlatten (L : List Str) (h : ∀ l ∈ L, '\n' ∉ l) :
    emittedLines (linesFlatten L) = L := by
  simp [emittedLines, splitNl_linesFlatten L h]

theorem joinNl_flatten : ∀ (L : List Str), L ≠ [] →
    joinNl L ++ ['\n'] = linesFlatten L
  | [a], _ => by simp [joinNl, linesFlatten]
  | a :: b :: rest, _ => by
      have ih := joinNl_flatten (b :: rest) (by simp)
      simp only [joinNl, linesFlatten, List.map_cons, List.flatten_cons] at ih ⊢
      rw [← ih]
      simp

/-! ### Helper lemmas about removal and metadata -/

theorem pyListRemove_eq_none {α : Type} [DecidableEq α] :
    ∀ (l : List α) (x : α), x ∉ l → pyListRemove l x = none
  | [], _, _ => rfl
  | y :: ys, x, h => by
      have hy : ¬ y = x := fun hy => h (by simp [hy])
      have hys : x ∉ ys := fun hm => h (by simp [hm])
      simp [pyListRemove, hy, pyListRemove_eq_none ys x hys]

theorem pyListRemove_first {α : Type} [DecidableEq α] :
    ∀ (l₁ l₂ : List α) (x : α), x ∉ l₁ →
      pyListRemove (l₁ ++ x :: l₂) x = some (l₁ ++ l₂)
  | [], l₂, x, _ => by simp [pyListRemove]
  | y :: ys, l₂, x, h => by
      have hy : ¬ y = x := fun hy => h (by simp [hy])
      have hys : x ∉ ys := fun hm => h (by simp [hm])
      simp [pyListRemove, hy, pyListRemove_first ys l₂ x hys]

theorem renderList_eq_flatten (cs : List NoteComponent) (d : Nat) :
    renderList cs d = (cs.map (fun c => render c d)).flatten := by
  induction cs with
  | nil => simp [renderList]
  | cons c cs ih => simp [renderList, ih]

theorem metaLines_eq_flatten (md : List (Str × Str)) :
    metaLines md = (md.map (fun p => p.1 ++ str ": " ++ p.2 ++ str "\n")).flatten := by
  induction md with
  | nil => rfl
  | cons p md ih => simp [metaLines, ih]

/-! ### Line structure of `render` -/

theorem str_nl : str "\n" = ['\n'] := rfl

theorem str_2nl : str "\n\n" = ['\n', '\n'] := rfl

theorem str_fence_nl : str "---\n" = str "---" ++ ['\n'] := rfl

theorem str_fence_2nl : str "---\n\n" = str "---" ++ ['\n', '\n'] := rfl

theorem linesFlatten_append (A B : List Str) :
    linesFlatten (A ++ B) = linesFlatten A ++ linesFlatten B := by
  simp [linesFlatten]

theorem linesFlatten_cons (l : Str) (L : List Str) :
    linesFlatten (l :: L) = l ++ '\n' :: linesFlatten L := by
  simp [linesFlatten]

/-- The metadata block lines without their terminating newlines. -/
def metaLinesList : List (Str × Str) → List Str
  | [] => []
  | (k, v) :: rest => (k ++ str ": " ++ v) :: metaLinesList rest

theorem metaLines_eq_linesFlatten (md : List (Str × Str)) :
    metaLines md = linesFlatten (metaLinesList md) := by
  induction md with
  | nil => rfl
  | cons p md ih =>
      obtain ⟨k, v⟩ := p
      simp [metaLines, metaLinesList, linesFlatten_cons, ih, str_nl]

mutual

/-- The list of lines emitted by `render`, computed structurally from the
component (each line of the output without its terminating newline). -/
def blockLines : NoteComponent → Nat → List Str
  | .heading t, d => [indentStr d ++ str "# " ++ t]
  | .subheading t l, d => [indentStr d ++ hashRun l ++ str " " ++ t]
  | .text c, d => (splitNl c).map (fun l => indentStr d ++ l)
  | .codeBlock c g, d =>
      (indentStr d ++ str "```" ++ g) ::
        ((splitNl c).map (fun l => indentStr d ++ l) ++ [indentStr d ++ str "```"])
  | .diagram c dt, d =>
      (indentStr d ++ str "[Diagram: " ++ dt ++ str "]") ::
        ((splitNl c).map (fun l => indentStr d ++ l) ++
          [indentStr d ++ str "[End Diagram]"])
  | .section_ t cs, d =>
      (if t = [] then [] else [indentStr d ++ str "## " ++ t]) ++ blockLinesList cs d
  | .note t cs md, d =>
      [str "# " ++ t, []] ++
        (if md = [] then [] else str "---" :: (metaLinesList md ++ [str "---", []])) ++
        blockLinesNoteList cs d

/-- Lines of `Section`'s child loop. -/
def blockLinesList : List NoteComponent → Nat → List Str
  | [], _ => []
  | c :: cs, d => blockLines c d ++ blockLinesList cs d

/-- Lines of `Note`'s child loop (a blank separator line after each child). -/
def blockLinesNoteList : List NoteComponent → Nat → List Str
  | [], _ => []
  | c :: cs, d => (blockLines c d ++ [[]]) ++ blockLinesNoteList cs d

end

mutual

theorem render_eq_linesFlatten : (c : NoteComponent) → (d : Nat) →
    render c d = linesFlatten (blockLines c d)
  | .heading t, d => by
      simp [render, blockLines, linesFlatten, str_nl]
  | .subheading t l, d => by
      simp [render, blockLines, linesFlatten, str_nl]
  | .text c, d => by
      simp only [render, blockLines, str_nl]
      rw [joinNl_flatten _ (by simp [splitNl_ne_nil])]
  | .codeBlock c g, d => by
      simp only [render, blockLines, str_nl]
      rw [joinNl_flatten _ (by simp)]
  | .diagram c dt, d => by
      simp only [render, blockLines, str_nl]
      rw [joinNl_flatten _ (by simp)]
  | .section_ t cs, d => by
      have ih := renderList_eq_linesFlatten cs d
      by_cases ht : t = []
      · simp [render, blockLines, ht, ih]
      · simp [render, blockLines, ht, ih, linesFlatten_append, linesFlatten_cons,
          linesFlatten, str_nl]
  | .note t cs md, d => by
      have ih := renderNoteList_eq_linesFlatten cs d
      by_cases hmd : md = []
      · simp [render, blockLines, hmd, ih, linesFlatten_append, linesFlatten_cons,
          str_2nl]
      · simp [render, blockLines, hmd, ih, linesFlatten_append, linesFlatten_cons,
          str_2nl, str_fence_nl, str_fence_2nl, metaLines_eq_linesFlatten]

theorem renderList_eq_linesFlatten : (cs : List NoteComponent) → (d : Nat) →
    renderList cs d = linesFlatten (blockLinesList cs d)
  | [], _ => rfl
  | c :: cs, d => by
      have ih1 := render_eq_linesFlatten c d
      have ih2 := renderList_eq_linesFlatten cs d
      simp [renderList, blockLinesList, linesFlatten_append, ih1, ih2]

theorem renderNoteList_eq_linesFlatten : (cs : List NoteComponent) → (d : Nat) →
    renderNoteList cs d = linesFlatten (blockLinesNoteList cs d)
  | [], _ => rfl
  | c :: cs, d => by
      have ih1 := render_eq_linesFlatten c d
      have ih2 := renderNoteList_eq_linesFlatten cs d
      simp [renderNoteList, blockLinesNoteList, linesFlatten_append,
        linesFlatten_cons, linesFlatten, ih1, ih2, str_nl]

end

mutual

/-- Components on which the indentation prefix is applied uniformly to every
emitted line: no `Note` in the subtree, and no embedded newline in the
fields that `render` does not split into lines. -/
def uniformIndent : NoteComponent → Bool
  | .heading t => decide ('\n' ∉ t)
  | .subheading t _ => decide ('\n' ∉ t)
  | .text _ => true
  | .codeBlock _ g => decide ('\n' ∉ g)
  | .diagram _ dt => decide ('\n' ∉ dt)
  | .section_ t cs => decide ('\n' ∉ t) && uniformIndentList cs
  | .note _ _ _ => false

/-- `uniformIndent` for every component of a list. -/
def uniformIndentList : List NoteComponent → Bool
  | [] => true
  | c :: cs => uniformIndent c && uniformIndentList cs

end

theorem nl_not_mem_hashRun (l : Int) : '\n' ∉ hashRun l := by
  rw [hashRun_eq_replicate]
  simp [List.mem_replicate]

mutual

theorem nl_not_mem_blockLines : (c : NoteComponent) → (d : Nat) →
    uniformIndent c = true → ∀ l ∈ blockLines c d, '\n' ∉ l
  | .heading t, d, h => by
      simp only [uniformIndent, decide_eq_true_eq] at h
      intro l hl
      simp only [blockLines, List.mem_singleton] at hl
      subst hl
      simp only [List.mem_append, not_or]
      exact ⟨⟨nl_not_mem_indentStr d, by decide⟩, h⟩
  | .subheading t lv, d, h => by
      simp only [uniformIndent, decide_eq_true_eq] at h
      intro l hl
      simp only [blockLines, List.mem_singleton] at hl
      subst hl
      simp only [List.mem_append, not_or]
      exact ⟨⟨⟨nl_not_mem_indentStr d, nl_not_mem_hashRun lv⟩, by decide⟩, h⟩
  | .text c, d, _ => by
      intro l hl
      simp only [blockLines, List.mem_map] at hl
      obtain ⟨p, hp, rfl⟩ := hl
      simp only [List.mem_append, not_or]
      exact ⟨nl_not_mem_indentStr d, nl_not_mem_splitNl c p hp⟩
  | .codeBlock c g, d, h => by
      simp only [uniformIndent, decide_eq_true_eq] at h
      intro l hl
      simp only [blockLines, List.mem_cons, List.mem_append, List.mem_map,
        List.mem_singleton, List.not_mem_nil, or_false] at hl
      rcases hl with rfl | ⟨⟨p, hp, rfl⟩ | rfl⟩
      · simp only [List.mem_append, not_or]
        exact ⟨⟨nl_not_mem_indentStr d, by decide⟩, h⟩
      · simp only [List.mem_append, not_or]
        exact ⟨nl_not_mem_indentStr d, nl_not_mem_splitNl c p hp⟩
      · simp only [List.mem_append, not_or]
        exact ⟨nl_not_mem_indentStr d, by decide⟩
  | .diagram c dt, d, h => by
      simp only [uniformIndent, decide_eq_true_eq] at h
      intro l hl
      simp only [blockLines, List.mem_cons, List.mem_append, List.mem_map,
        List.mem_singleton, List.not_mem_nil, or_false] at hl
      rcases hl with rfl | ⟨⟨p, hp, rfl⟩ | rfl⟩
      · simp only [List.mem_append, not_or]
        exact ⟨⟨⟨nl_not_mem_indentStr d, by decide⟩, h⟩, by decide⟩
      · simp only [List.mem_append, not_or]
        exact ⟨nl_not_mem_indentStr d, nl_not_mem_splitNl c p hp⟩
      · simp only [List.mem_append, not_or]
        exact ⟨nl_not_mem_indentStr d, by decide⟩
  | .section_ t cs, d, h => by
      simp only [uniformIndent, Bool.and_eq_true, decide_eq_true_eq] at h
      intro l hl
      simp only [blockLines, List.mem_append] at hl
      rcases hl with hl | hl
      · by_cases ht : t = []
        · simp [ht] at hl
        · simp only [if_neg ht, List.mem_singleton] at hl
          subst hl
          simp only [List.mem_append, not_or]
          exact ⟨⟨nl_not_mem_indentStr d, by decide⟩, h.1⟩
      · exact nl_not_mem_blockLinesList cs d h.2 l hl
  | .note t cs md, d, h => by
      simp [uniformIndent] at h

theorem nl_not_mem_blockLinesList : (cs : List NoteComponent) → (d : Nat) →
    uniformIndentList cs = true → ∀ l ∈ blockLinesList cs d, '\n' ∉ l
  | [], _, _ => by simp [blockLinesList]
  | c :: cs, d, h => by
      simp only [uniformIndentList, Bool.and_eq_true] at h
      intro l hl
      simp only [blockLinesList, List.mem_append] at hl
      rcases hl with hl | hl
      · exact nl_not_mem_blockLines c d h.1 l hl
      · exact nl_not_mem_blockLinesList cs d h.2 l hl

end

mutual

theorem blockLines_indent : (c : NoteComponent) → (d : Nat) →
    uniformIndent c = true →
    blockLines c d = (blockLines c 0).map (fun l => indentStr d ++ l)
  | .heading t, d, _ => by
      simp [blockLines, indentStr_zero]
  | .subheading t lv, d, _ => by
      simp [blockLines, indentStr_zero]
  | .text c, d, _ => by
      simp [blockLines, indentStr_zero, List.map_map, Function.comp]
  | .codeBlock c g, d, _ => by
      simp [blockLines, indentStr_zero, List.map_map, Function.comp]
  | .diagram c dt, d, _ => by
      simp [blockLines, indentStr_zero, List.map_map, Function.comp]
  | .section_ t cs, d, h => by
      simp only [uniformIndent, Bool.and_eq_true, decide_eq_true_eq] at h
      have ih := blockLinesList_indent cs d h.2
      by_cases ht : t = []
      · simp [blockLines, ht, ih]
      · simp [blockLines, ht, ih, indentStr_zero]
  | .note t cs md, d, h => by
      simp [uniformIndent] at h

theorem blockLinesList_indent : (cs : List NoteComponent) → (d : Nat) →
    uniformIndentList cs = true →
    blockLinesList cs d = (blockLinesList cs 0).map (fun l => indentStr d ++ l)
  | [], _, _ => by simp [blockLinesList]
  | c :: cs, d, h => by
      simp only [uniformIndentList, Bool.and_eq_true] at h
      have ih1 := blockLines_indent c d h.1
      have ih2 := blockLinesList_indent cs d h.2
      simp [blockLinesList, ih1, ih2]

end

/-! ### State-passing translation of the methods (for purity claims) -/

mutual

/-- `render` translated with the object state threaded through explicitly:
the result pairs the returned string with the tree after the call.  The
method bodies only read fields, so each clause rebuilds the node from the
(recursively threaded) children. -/
def renderSt : NoteComponent → Nat → Str × NoteComponent
  | .section_ title comps, indent =>
      let p := renderListSt comps indent
      ((if title = [] then [] else indentStr indent ++ str "## " ++ title ++ str "\n") ++
          p.1,
        .section_ title p.2)
  | .note title comps metadata, indent =>
      let p := renderNoteListSt comps indent
      (str "# " ++ title ++ str "\n\n" ++
          (if metadata = [] then []
           else str "---\n" ++ metaLines metadata ++ str "---\n\n") ++ p.1,
        .note title p.2 metadata)
  | c, indent => (render c indent, c)

/-- The child loop of `Section.render` with state threaded. -/
def renderListSt : List NoteComponent → Nat → Str × List NoteComponent
  | [], _ => ([], [])
  | c :: cs, indent =>
      let p := renderSt c indent
      let q := renderListSt cs indent
      (p.1 ++ q.1, p.2 :: q.2)

/-- The child loop of `Note.render` with state threaded. -/
def renderNoteListSt : List NoteComponent → Nat → Str × List NoteComponent
  | [], _ => ([], [])
  | c :: cs, indent =>
      let p := renderSt c indent
      let q := renderNoteListSt cs indent
      (p.1 ++ str "\n" ++ q.1, p.2 :: q.2)

end

mutual

/-- `get_text_content` with the object state threaded through explicitly. -/
def getTextSt : NoteComponent → Str × NoteComponent
  | .section_ title comps =>
      let p := getTextListSt comps
      (joinSp ((if title = [] then [] else [title]) ++ p.1), .section_ title p.2)
  | .note title comps metadata =>
      let p := getTextListSt comps
      (joinSp (title :: p.1), .note title p.2 metadata)
  | c => (get_text_content c, c)

/-- The children's digest loop with state threaded. -/
def getTextListSt : List NoteComponent → List Str × List NoteComponent
  | [] => ([], [])
  | c :: cs =>
      let p := getTextSt c
      let q := getTextListSt cs
      (p.1 :: q.1, p.2 :: q.2)

end

mutual

theorem renderSt_eq : (c : NoteComponent) → (d : Nat) → renderSt c d = (render c d, c)
  | .heading t, d => rfl
  | .subheading t l, d => rfl
  | .text c, d => rfl
  | .codeBlock c g, d => rfl
  | .diagram c dt, d => rfl
  | .section_ t cs, d => by
      simp [renderSt, renderListSt_eq cs d, render]
  | .note t cs md, d => by
      simp [renderSt, renderNoteListSt_eq cs d, render]

theorem renderListSt_eq : (cs : List NoteComponent) → (d : Nat) →
    renderListSt cs d = (renderList cs d, cs)
  | [], _ => rfl
  | c :: cs, d => by
      simp [renderListSt, renderSt_eq c d, renderListSt_eq cs d, renderList]

theorem renderNoteListSt_eq : (cs : List NoteComponent) → (d : Nat) →
    renderNoteListSt cs d = (renderNoteList cs d, cs)
  | [], _ => rfl
  | c :: cs, d => by
      simp [renderNoteListSt, renderSt_eq c d, renderNoteListSt_eq cs d, renderNoteList]

end

mutual

theorem getTextSt_eq : (c : NoteComponent) → getTextSt c = (get_text_content c, c)
  | .heading t => rfl
  | .subheading t l => rfl
  | .text c => rfl
  | .codeBlock c g => rfl
  | .diagram c dt => rfl
  | .section_ t cs => by
      simp [getTextSt, getTextListSt_eq cs, get_text_content]
  | .note t cs md => by
      simp [getTextSt, getTextListSt_eq cs, get_text_content]

theorem getTextListSt_eq : (cs : List NoteComponent) →
    getTextListSt cs = (textContents cs, cs)
  | [] => rfl
  | c :: cs => by
      simp [getTextListSt, getTextSt_eq c, getTextListSt_eq cs, textContents]

end

/-! ### Metadata upsert lemmas -/

theorem set_metadata_new (md : List (Str × Str)) (k v : Str)
    (h : k ∉ md.map Prod.fst) : Note.set_metadata md k v = md ++ [(k, v)] := by
  have hany : md.any (fun p => p.1 = k) = false := by
    rw [List.any_eq_false]
    intro p hp
    simp only [decide_eq_true_eq]
    exact fun hk => h (List.mem_map.mpr ⟨p, hp, hk⟩)
  simp [Note.set_metadata, hany]

theorem set_metadata_existing (md : List (Str × Str)) (k v : Str)
    (h : k ∈ md.map Prod.fst) :
    Note.set_metadata md k v = md.map (fun p => if p.1 = k then (k, v) else p) := by
  have hany : md.any (fun p => p.1 = k) = true := by
    rw [List.any_eq_true]
    obtain ⟨p, hp, hk⟩ := List.mem_map.mp h
    exact ⟨p, hp, by simp [hk]⟩
  simp [Note.set_metadata, hany]

theorem set_metadata_keys (md : List (Str × Str)) (k v : Str)
    (h : k ∈ md.map Prod.fst) :
    (Note.set_metadata md k v).map Prod.fst = md.map Prod.fst := by
  rw [set_metadata_existing md k v h, List.map_map]
  apply List.map_congr_left
  intro p _
  by_cases hpk : p.1 = k <;> simp [hpk]

theorem set_metadata_mem (md : List (Str × Str)) (k v : Str)
    (h : k ∈ md.map Prod.fst) : (k, v) ∈ Note.set_metadata md k v := by
  rw [set_metadata_existing md k v h]
  obtain ⟨p, hp, hk⟩ := List.mem_map.mp h
  exact List.mem_map.mpr ⟨p, hp, by simp [hk]⟩

/-! ### Claim theorems -/

/-- C1: a `Note("T")` with `set_metadata("k","v")` and the single child
`Text("hi")` renders at depth 0 to exactly `"# T\n\n---\nk: v\n---\n\nhi\n\n"`:
title line plus blank line, metadata fenced by `---` lines followed by one
blank line, then the child's rendering followed by exactly one extra newline. -/
theorem C1_document_concrete_render :
    render (.note (str "T") [.text (str "hi")]
        (Note.set_metadata [] (str "k") (str "v"))) 0 =
      str "# T\n\n---\nk: v\n---\n\nhi\n\n" := by
  decide

/-- C2: for every `Section` or `Note` and every component not present among
its children, `remove` raises a lookup-failure error (`ValueError`, modelled
as `none`) rather than silently succeeding. -/
theorem C2_remove_absent_raises (comps : List NoteComponent) (c : NoteComponent)
    (h : c ∉ comps) :
    Section.remove comps c = none ∧ Note.remove comps c = none :=
  ⟨pyListRemove_eq_none comps c h, pyListRemove_eq_none comps c h⟩

/-- C2 witness: removing `Text("hi")` from a container whose only child is
`Heading("T")` raises in both `Section.remove` and `Note.remove`. -/
theorem C2_witness :
    Section.remove [.heading (str "T")] (.text (str "hi")) = none ∧
    Note.remove [.heading (str "T")] (.text (str "hi")) = none :=
  C2_remove_absent_raises [.heading (str "T")] (.text (str "hi")) (by decide)

/-- C3 counterexample: the claim fails as stated.  `Note.render` at depth 1
emits its title line `"# T"` with no two-space prefix (`Note.render` applies
the indent only to its children); moreover a `Heading` whose text embeds a
newline prefixes only the first of the lines it emits, and a `Note` nested
inside a `Section` carries the failure to non-root positions. -/
theorem C3_counterexample :
    (splitNl (render (.note (str "T") [] []) 1)).head? = some (str "# T") ∧
    indentStr 1 = [' ', ' '] ∧
    (str "# T").take 2 ≠ [' ', ' '] ∧
    emittedLines (render (.heading (str "a\nb")) 1) ≠
      (emittedLines (render (.heading (str "a\nb")) 0)).map
        (fun l => indentStr 1 ++ l) ∧
    emittedLines (render (.section_ (str "S") [.note (str "T") [] []]) 1) ≠
      (emittedLines (render (.section_ (str "S") [.note (str "T") [] []]) 0)).map
        (fun l => indentStr 1 ++ l) := by
  decide

/-- C3 (amended): for every node containing no `Note` in its subtree and no
embedded newline in the fields `render` does not split into lines (heading
and subheading texts, section titles, code-block languages, diagram types),
every emitted line of `render(depth)` is exactly the `2 × depth`-space
indentation prefix prepended to the corresponding emitted line of
`render(0)`, and that prefix has length exactly `2 × depth`.  A `Note`
applies the prefix only to the lines its children emit, leaving its own
title, metadata and separator lines unindented. -/
theorem C3_uniform_indentation (c : NoteComponent) (d : Nat)
    (h : uniformIndent c = true) :
    emittedLines (render c d) =
      (emittedLines (render c 0)).map (fun l => indentStr d ++ l) ∧
    (indentStr d).length = 2 * d := by
  have e1 : emittedLines (render c d) = blockLines c d := by
    rw [render_eq_linesFlatten]
    exact emittedLines_linesFlatten _ (nl_not_mem_blockLines c d h)
  have e0 : emittedLines (render c 0) = blockLines c 0 := by
    rw [render_eq_linesFlatten]
    exact emittedLines_linesFlatten _ (nl_not_mem_blockLines c 0 h)
  exact ⟨by rw [e1, e0, blockLines_indent c d h], indentStr_length d⟩

/-- C3 witness: a titled section holding a two-line text and a code block,
rendered at depth 2. -/
theorem C3_witness :
    uniformIndent (.section_ (str "S")
      [.text (str "a\nb"), .codeBlock (str "x = 1") (str "py")]) = true ∧
    (emittedLines (render (.section_ (str "S")
        [.text (str "a\nb"), .codeBlock (str "x = 1") (str "py")]) 2) =
      (emittedLines (render (.section_ (str "S")
        [.text (str "a\nb"), .codeBlock (str "x = 1") (str "py")]) 0)).map
          (fun l => indentStr 2 ++ l) ∧
      (indentStr 2).length = 2 * 2) :=
  ⟨by decide, C3_uniform_indentation _ 2 (by decide)⟩

/-- C4: every `Subheading` stores the effective level `clamp(input, 2, 6)`
(that is, `max 2 (min 6 input)`), which always lies in `[2, 6]`, with no
error raised (the constructor is total); `render` then emits exactly that
many `#` characters. -/
theorem C4_subheading_level_clamped (t : Str) (lvl : Int) (d : Nat) :
    Subheading.init t lvl = NoteComponent.subheading t (max 2 (min 6 lvl)) ∧
    2 ≤ max 2 (min 6 lvl) ∧ max 2 (min 6 lvl) ≤ 6 ∧
    render (Subheading.init t lvl) d =
      indentStr d ++ List.replicate (max 2 (min 6 lvl)).toNat '#' ++
        str " " ++ t ++ str "\n" ∧
    (List.replicate (max 2 (min 6 lvl)).toNat '#').length =
      (max 2 (min 6 lvl)).toNat := by
  refine ⟨rfl, le_max_left _ _, max_le (by norm_num) (min_le_left _ _), ?_, ?_⟩
  · simp [Subheading.init, render, hashRun_eq_replicate]
  · simp

/-- C5: every leaf node's `get_text_content` returns exactly the literal
content string supplied at construction, with no markup added. -/
theorem C5_leaf_text_content_literal (t c g dt : Str) (lvl : Int) :
    get_text_content (.heading t) = t ∧
    get_text_content (.subheading t lvl) = t ∧
    get_text_content (Subheading.init t lvl) = t ∧
    get_text_content (.text c) = c ∧
    get_text_content (.codeBlock c g) = c ∧
    get_text_content (.diagram c dt) = c :=
  ⟨rfl, rfl, rfl, rfl, rfl, rfl⟩

/-- C6: `Section.render(d)` emits the `"## <title>"` line (only when the
title is non-empty) and then each child's rendering at the same, unchanged
depth `d`, in insertion order, concatenated with no added separators. -/
theorem C6_section_render_structure (t : Str) (cs : List NoteComponent) (d : Nat) :
    render (.section_ t cs) d =
      (if t = [] then [] else indentStr d ++ str "## " ++ t ++ str "\n") ++
        (cs.map (fun c => render c d)).flatten := by
  simp [render, renderList_eq_flatten]

/-- C7: a `Section` with empty title and no children renders to exactly the
empty string at every depth. -/
theorem C7_empty_section_renders_empty (d : Nat) :
    render (.section_ [] []) d = [] := by
  simp [render, renderList]

/-- C8: `set_metadata` is an order-preserving upsert: a new key is appended
at the end, an existing key has its value overwritten while every key keeps
its original position, and `render` emits the `key: value` lines in exactly
the stored order. -/
theorem C8_set_metadata_upsert (md : List (Str × Str)) (k v t : Str)
    (cs : List NoteComponent) (d : Nat) :
    (k ∉ md.map Prod.fst → Note.set_metadata md k v = md ++ [(k, v)]) ∧
    (k ∈ md.map Prod.fst →
      (Note.set_metadata md k v).map Prod.fst = md.map Prod.fst ∧
      (k, v) ∈ Note.set_metadata md k v ∧
      Note.set_metadata md k v = md.map (fun p => if p.1 = k then (k, v) else p)) ∧
    (md ≠ [] →
      render (.note t cs md) d =
        str "# " ++ t ++ str "\n\n" ++ str "---\n" ++
          (md.map (fun p => p.1 ++ str ": " ++ p.2 ++ str "\n")).flatten ++
          str "---\n\n" ++ renderNoteList cs d) := by
  refine ⟨fun h => set_metadata_new md k v h,
    fun h => ⟨set_metadata_keys md k v h, set_metadata_mem md k v h,
      set_metadata_existing md k v h⟩, fun h => ?_⟩
  simp [render, h, metaLines_eq_flatten, List.append_assoc]

/-- C8 witness: upsert on the one-entry metadata `{"k": "0"}`. -/
theorem C8_witness :
    (str "k" ∉ ([(str "k", str "0")].map Prod.fst) →
      Note.set_metadata [(str "k", str "0")] (str "k") (str "v") =
        [(str "k", str "0")] ++ [(str "k", str "v")]) ∧
    (str "k" ∈ ([(str "k", str "0")].map Prod.fst) →
      (Note.set_metadata [(str "k", str "0")] (str "k") (str "v")).map Prod.fst =
        [(str "k", str "0")].map Prod.fst ∧
      (str "k", str "v") ∈ Note.set_metadata [(str "k", str "0")] (str "k") (str "v") ∧
      Note.set_metadata [(str "k", str "0")] (str "k") (str "v") =
        [(str "k", str "0")].map
          (fun p => if p.1 = str "k" then (str "k", str "v") else p)) ∧
    (([(str "k", str "0")] : List (Str × Str)) ≠ [] →
      render (.note (str "T") [] [(str "k", str "0")]) 0 =
        str "# " ++ str "T" ++ str "\n\n" ++ str "---\n" ++
          ([(str "k", str "0")].map
            (fun p => p.1 ++ str ": " ++ p.2 ++ str "\n")).flatten ++
          str "---\n\n" ++ renderNoteList [] 0) :=
  C8_set_metadata_upsert [(str "k", str "0")] (str "k") (str "v") (str "T") [] 0

/-- C9: `render` and `get_text_content` are pure and deterministic: with the
object state threaded explicitly, each call returns the tree unchanged, and
a second call on the returned tree yields a byte-identical string. -/
theorem C9_render_pure_and_idempotent (c : NoteComponent) (d : Nat) :
    renderSt c d = (render c d, c) ∧
    (renderSt ((renderSt c d).2) d).1 = (renderSt c d).1 ∧
    getTextSt c = (get_text_content c, c) ∧
    (getTextSt ((getTextSt c).2)).1 = (getTextSt c).1 := by
  have h1 := renderSt_eq c d
  have h2 := getTextSt_eq c
  refine ⟨h1, ?_, h2, ?_⟩ <;> simp [h1, h2]

/-- C10: a failed `remove` (component absent) raises and leaves the children
list completely unchanged, while a successful `remove` deletes exactly the
first occurrence, leaving any later duplicates in place. -/
theorem C10_remove_error_atomic_first_only (comps l₁ l₂ : List NoteComponent)
    (c : NoteComponent) :
    (c ∉ comps →
      Section.remove comps c = none ∧ Note.remove comps c = none ∧
      (Section.remove comps c).getD comps = comps ∧
      (Note.remove comps c).getD comps = comps) ∧
    (c ∉ l₁ →
      Section.remove (l₁ ++ c :: l₂) c = some (l₁ ++ l₂) ∧
      Note.remove (l₁ ++ c :: l₂) c = some (l₁ ++ l₂)) := by
  constructor
  · intro h
    have hn := pyListRemove_eq_none comps c h
    exact ⟨hn, hn, by simp [Section.remove, hn], by simp [Note.remove, hn]⟩
  · intro h
    have hs := pyListRemove_first l₁ l₂ c h
    exact ⟨hs, hs⟩

/-- C10 witness: removing `Text("b")` from `[Heading("a")]` fails and leaves
the list unchanged; removing it from `[Heading("a"), Text("b"), Text("b")]`
deletes only the first occurrence and keeps the duplicate. -/
theorem C10_witness :
    ((.text (str "b") : NoteComponent) ∉ ([.heading (str "a")] : List NoteComponent) →
      Section.remove [.heading (str "a")] (.text (str "b")) = none ∧
      Note.remove [.heading (str "a")] (.text (str "b")) = none ∧
      (Section.remove [.heading (str "a")] (.text (str "b"))).getD
        [.heading (str "a")] = [.heading (str "a")] ∧
      (Note.remove [.heading (str "a")] (.text (str "b"))).getD
        [.heading (str "a")] = [.heading (str "a")]) ∧
    ((.text (str "b") : NoteComponent) ∉ ([.heading (str "a")] : List NoteComponent) →
      Section.remove ([.heading (str "a")] ++ .text (str "b") :: [.text (str "b")])
          (.text (str "b")) = some ([.heading (str "a")] ++ [.text (str "b")]) ∧
      Note.remove ([.heading (str "a")] ++ .text (str "b") :: [.text (str "b")])
          (.text (str "b")) = some ([.heading (str "a")] ++ [.text (str "b")])) :=
  C10_remove_error_atomic_first_only [.heading (str "a")] [.heading (str "a")]
    [.text (str "b")] (.text (str "b"))
